import Mathlib

/-!
Verification of the change-detection and summarization pipeline in
`src/index.ts` (a build monitor for a Next.js site).

The TypeScript source is shallowly embedded as executable Lean functions:

* JavaScript objects with string keys (`Record<string, string>`) become
  association lists in key-insertion order with unique keys (`JsRecord`);
  property reads and writes are `recordLookup` and `recordPut`.
* Strings are Lean `String`s; the few regex operations of the source
  (`match`, `replace`, `split`) are embedded as explicit character-list
  scans that realize the exact regexes that appear in the source.
* Network effects are parameters: the per-script download behaviour is a
  function `String → Option String` (`some body` when the fetch and body
  read resolve — the source never checks the HTTP status of script
  downloads — and `none` when they reject); the summarization endpoint is
  an `LlmBehavior`; a rejection of the Discord webhook fetch is a boolean.
* The Cloudflare KV store is a `Store` record; `checkTask` maps the
  pre-run store and the external behaviours to a `RunResult` holding the
  post-run store together with flags recording which externally visible
  actions the run performed.
-/

set_option maxHeartbeats 1000000

namespace DeepseekChecker

/-- A JavaScript object with string keys and string values
(`Record<string, string>` in the source), as an association list in
key-insertion order with unique keys. -/
abbrev JsRecord := List (String × String)

/-- Property read `m[k]`: the value stored at key `k`, if present. -/
def recordLookup (m : JsRecord) (k : String) : Option String :=
  match m with
  | [] => none
  | (k', v) :: rest => if k' = k then some v else recordLookup rest k

/-- Property write `m[k] = v`: updates the value in place when the key
exists, otherwise appends the new key at the end (JavaScript object key
order for non-index string keys). -/
def recordPut (m : JsRecord) (k v : String) : JsRecord :=
  if m.any (fun e => e.1 == k) then
    m.map (fun e => if e.1 = k then (k, v) else e)
  else m ++ [(k, v)]

/-! ### Tokenization and diffing (`generateDiff`, lines 130-158) -/

/-- Characters kept by the tokenizer: the complement of the separator
class in `str.split(/[^a-zA-Z0-9_'"一-龥]+/)`. -/
def tokenChar (c : Char) : Bool :=
  ('a' ≤ c && c ≤ 'z') || ('A' ≤ c && c ≤ 'Z') || ('0' ≤ c && c ≤ '9') ||
  c == '_' || c == '\'' || c == '"' ||
  (0x4e00 ≤ c.toNat && c.toNat ≤ 0x9fa5)

/-- `String.prototype.split` on the separator regex
`/[^a-zA-Z0-9_'"一-龥]+/`: the pieces between maximal runs of
separator characters, with an empty piece at an end of the string that
touches a separator run (and `[""]` for the empty string), exactly as in
JavaScript. `cur` holds the piece being read, reversed; `inSep` records
that the previous character belonged to a separator run. -/
def splitAux : List Char → List Char → Bool → List (List Char)
  | [], cur, _ => [cur.reverse]
  | c :: rest, cur, inSep =>
    if tokenChar c then splitAux rest (c :: cur) false
    else if inSep then splitAux rest [] true
    else cur.reverse :: splitAux rest [] true

/-- The token list of a module's content, before deduplication. -/
def tokensOf (s : String) : List String :=
  (splitAux s.data [] false).map String.mk

/-- `new Set(xs)` keeps the first occurrence of each element, in
insertion order. -/
def dedupFirstAux : List String → List String → List String
  | [], _ => []
  | x :: xs, seen =>
    if x ∈ seen then dedupFirstAux xs seen else x :: dedupFirstAux xs (x :: seen)

/-- `tokenize(str)` from the source: `new Set(str.split(...))`, as a
duplicate-free list in first-insertion order. -/
def tokenSet (s : String) : List String := dedupFirstAux (tokensOf s) []

/-- `[...newTokens].filter(x => !oldTokens.has(x) && x.length > 3)`. -/
def addedTokens (oldContent newContent : String) : List String :=
  (tokenSet newContent).filter
    (fun x => !(tokenSet oldContent).contains x && decide (3 < x.length))

/-- `[...oldTokens].filter(x => !newTokens.has(x) && x.length > 3)`. -/
def removedTokens (oldContent newContent : String) : List String :=
  (tokenSet oldContent).filter
    (fun x => !(tokenSet newContent).contains x && decide (3 < x.length))

/-- One iteration of the `for (const [path, newContent] of
Object.entries(newFiles))` loop of `generateDiff`: the text appended to
`diffSummary` for the entry `e`. `if (!oldContent)` in the source is a
JavaScript falsiness test, true both when the key is absent and when the
stored content is the empty string. -/
def renderEntry (oldFiles : JsRecord) (e : String × String) : String :=
  match recordLookup oldFiles e.1 with
  | none => "\n[新增模組] " ++ e.1 ++ "\n"
  | some oldContent =>
    if oldContent = "" then "\n[新增模組] " ++ e.1 ++ "\n"
    else if oldContent = e.2 then ""
    else
      let added := addedTokens oldContent e.2
      let removed := removedTokens oldContent e.2
      if added.isEmpty && removed.isEmpty then ""
      else
        "\n--- 模組變更: " ++ e.1 ++ " ---\n" ++
        (if added.isEmpty then ""
         else "[新增關鍵字/字串]: " ++ String.intercalate ", " (added.take 40) ++ "\n") ++
        (if removed.isEmpty then ""
         else "[移除關鍵字/字串]: " ++ String.intercalate ", " (removed.take 40) ++ "\n")

/-- `generateDiff(oldFiles, newFiles)` (lines 130-158): accumulate the
per-entry blocks over the entries of `newFiles`, then
`diffSummary.substring(0, 3000)` — the first 3000 characters. -/
def generateDiff (oldFiles newFiles : JsRecord) : String :=
  String.mk ((newFiles.foldl (fun acc e => acc ++ renderEntry oldFiles e) "").data.take 3000)

/-! ### Path normalization (`fetchJsContents`, line 117) -/

/-- The character class `[a-f0-9]` of the hash-stripping regex. -/
def isHexLower (c : Char) : Bool :=
  ('a' ≤ c && c ≤ 'f') || ('0' ≤ c && c ≤ '9')

/-- `path.replace` of the pattern `-[a-f0-9]{16,}\.js$` (anchored, first
match) with `.js`, from line 117 of the source. Because the pattern is
anchored at the end and a `-` is not a hex character, the regex can match
at exactly one position: just before the maximal run of hex characters
that ends the stem (the path with the final `.js` removed), provided that
run has length at least 16 and is preceded by a `-`. The embedding works
on the reversed character list: `cs.reverse.take 3 = ['s','j','.']` is
the `\.js$` anchor, the `takeWhile`/`dropWhile` pair isolates the maximal
hex run, and the `head? = some '-'` test is the leading `-`. -/
def normalizeChars (cs : List Char) : List Char :=
  if (cs.reverse.take 3 = ['s', 'j', '.'])
      ∧ (((cs.reverse.drop 3).dropWhile isHexLower).head? = some '-')
      ∧ (16 ≤ ((cs.reverse.drop 3).takeWhile isHexLower).length) then
    ((cs.reverse.drop 3).dropWhile isHexLower).tail.reverse ++ ['.', 'j', 's']
  else cs

/-- The canonical module name of a script path (`baseName` in the source). -/
def normalizeStr (path : String) : String := String.mk (normalizeChars path.data)

/-! ### Build identifier extraction (`fetchPageData`, lines 95-96) -/

/-- `hasLit lit cs` is true when `lit` is an initial segment of `cs`. -/
def hasLit : List Char → List Char → Bool
  | [], _ => true
  | _ :: _, [] => false
  | l :: ls, c :: cs => l == c && hasLit ls cs

/-- The literal part `"buildId":"` of the build-identifier regex. -/
def buildIdLit : List Char :=
  '"' :: 'b' :: 'u' :: 'i' :: 'l' :: 'd' :: 'I' :: 'd' :: '"' :: ':' :: '"' :: []

/-- The first match of `/"buildId":"([^"]+)"/`, scanning positions left
to right: at a position where the literal `"buildId":"` occurs, the
capture is the maximal run of non-quote characters after it, and the
match succeeds when that run is non-empty and a closing quote follows
(the run is terminated by a character rather than by the end of input). -/
def extractFrom : List Char → Option (List Char)
  | [] => none
  | c :: rest =>
    if hasLit buildIdLit (c :: rest) then
      let after := (c :: rest).drop buildIdLit.length
      let tok := after.takeWhile (fun d => d != '"')
      if tok.isEmpty || (after.dropWhile (fun d => d != '"')).isEmpty then
        extractFrom rest
      else some tok
    else extractFrom rest

/-- `html.match(/"buildId":"([^"]+)"/)`, first capture group
(`fetchPageData`, lines 95-96); `none` when the page markup contains no
match. -/
def extractBuildId (html : String) : Option String :=
  (extractFrom html.data).map String.mk

/-! ### Summarizer client (`getAIPatchSummary`, lines 163-193) -/

/-- Whitespace for `String.prototype.trim`. -/
def isJsWs (c : Char) : Bool :=
  c == ' ' || c == '\t' || c == '\n' || c == '\r' ||
  c == Char.ofNat 0x0b || c == Char.ofNat 0x0c ||
  c == Char.ofNat 0xa0 || c == Char.ofNat 0xfeff

/-- `s.trim()`: leading and trailing whitespace removed. -/
def jsTrim (cs : List Char) : List Char :=
  ((cs.dropWhile isJsWs).reverse.dropWhile isJsWs).reverse

/-- Outcome of the single POST to the external text-generation endpoint:
`reject` when the transport or JSON decoding fails (the `catch` branch of
the source), `respond content` when it succeeds, with `content` the value
of `data.choices?.[0]?.message?.content` when that optional chain yields
a string. -/
inductive LlmBehavior where
  | reject
  | respond (content : Option String)
  deriving DecidableEq, Repr

/-- `getAIPatchSummary(diffText, env)` (lines 163-193). The returned
boolean records whether the external endpoint was called at all: `false`
exactly on the early `if (!diffText.trim())` return. -/
def getAIPatchSummary (diffText : String) (llm : LlmBehavior) : String × Bool :=
  if (jsTrim diffText.data).isEmpty then
    ("僅有微小變更或資源檔更新，無明顯業務邏輯變化。", false)
  else
    match llm with
    | .reject => ("AI 簡報生成失敗，請手動查看變更。", true)
    | .respond none => ("無法解析更新內容。", true)
    | .respond (some content) =>
      (if (jsTrim content.data).isEmpty then "無法解析更新內容。"
       else String.mk (jsTrim content.data), true)

/-! ### Concurrent script fetch (`fetchJsContents`, lines 107-125) -/

/-- The body of one download task of `fetchJsContents`: when the fetch
and body read resolve (`beh path = some content` — the source never
checks `res.ok` here, so a 404 body still resolves), write the content
under the canonical name; when they reject, the `catch` swallows the
error and the task writes nothing. -/
def fetchStep (beh : String → Option String) (files : JsRecord) (path : String) : JsRecord :=
  match beh path with
  | some content => recordPut files (normalizeStr path) content
  | none => files

/-- `fetchJsContents(targetUrl, scriptPaths)`: the joined result of the
per-path tasks, with writes applied in path order (each task writes at
most one key; for distinct canonical names the tasks commute, and for
colliding names the last write wins in either model). -/
def fetchJsContents (scriptPaths : List String) (beh : String → Option String) : JsRecord :=
  scriptPaths.foldl (fetchStep beh) []

/-! ### Pipeline orchestrator (`checkTask`, lines 38-83) -/

/-- The two Cloudflare KV keys read and written by `checkTask`.
`lastBuildId` models `MONITOR_KV.get('LAST_BUILD_ID')` (`none` for a
never-written key); `lastJsFiles` models `LAST_JS_FILES`, holding the
parsed value of the stored JSON blob (`JSON.parse`/`JSON.stringify`
round-trip on a string record is the identity on the parsed value). -/
structure Store where
  lastBuildId : Option String
  lastJsFiles : Option JsRecord
  deriving DecidableEq, Repr

/-- The terminal state of one `checkTask` run. `errored` is a run that
reached the top-level `catch` (line 80). -/
inductive Outcome where
  | aborted
  | bootstrap
  | noChange
  | changed
  | errored
  deriving DecidableEq, Repr

/-- Externally visible effects of one `checkTask` run: the post-run
store, whether each KV key was written, whether `getAIPatchSummary` was
entered, whether the external text-generation endpoint was called,
whether the Discord webhook fetch was attempted, and whether
`generateDiff` was run. -/
structure RunResult where
  outcome : Outcome
  store : Store
  wroteBuildId : Bool
  wroteJsFiles : Bool
  summaryRequested : Bool
  llmCalled : Bool
  notifierCalled : Bool
  diffComputed : Bool
  deriving DecidableEq, Repr

/-- `checkTask(env)` (lines 38-83), for a run in which the page fetch
itself succeeded and returned markup `html` and script paths
`scriptPaths`. `beh` is the script-download behaviour, `llm` the
summarization endpoint's behaviour, and `notifyFails` is true when the
Discord webhook fetch rejects — `sendDiscordNotification` has no
try/catch of its own, so such a rejection propagates out of the `await`
at line 72 to the top-level catch, skipping the KV writes of lines
75-76. The `if (!buildId)` and `if (!lastBuildId)` falsiness tests also
treat the empty string as absent. -/
def checkTask (html : String) (scriptPaths : List String)
    (beh : String → Option String) (llm : LlmBehavior)
    (notifyFails : Bool) (st : Store) : RunResult :=
  match extractBuildId html with
  | none => ⟨.aborted, st, false, false, false, false, false, false⟩
  | some buildId =>
    if buildId = "" then ⟨.aborted, st, false, false, false, false, false, false⟩
    else
      let currentJsFiles := fetchJsContents scriptPaths beh
      match st.lastBuildId with
      | none =>
        ⟨.bootstrap, ⟨some buildId, some currentJsFiles⟩, true, true, false, false, false, false⟩
      | some lastBuildId =>
        if lastBuildId = "" then
          ⟨.bootstrap, ⟨some buildId, some currentJsFiles⟩, true, true, false, false, false, false⟩
        else if buildId ≠ lastBuildId then
          let diffText := generateDiff (st.lastJsFiles.getD []) currentJsFiles
          let summary := getAIPatchSummary diffText llm
          if notifyFails then
            ⟨.errored, st, false, false, true, summary.2, true, true⟩
          else
            ⟨.changed, ⟨some buildId, some currentJsFiles⟩,
              true, true, true, summary.2, true, true⟩
        else ⟨.noChange, st, false, false, false, false, false, false⟩

/-! ### Helper lemmas -/

/-- A successful match of the build-identifier regex has a non-empty
capture group (`[^"]+` requires at least one character). -/
lemma extractFrom_ne_nil : ∀ {cs tok : List Char}, extractFrom cs = some tok → tok ≠ [] := by
  intro cs
  induction cs with
  | nil => intro tok h; simp [extractFrom] at h
  | cons c rest ih =>
    intro tok h
    rw [extractFrom] at h
    by_cases hl : hasLit buildIdLit (c :: rest) = true
    · simp only [hl, if_true] at h
      by_cases he : (((c :: rest).drop buildIdLit.length).takeWhile (fun d => d != '"')).isEmpty
          || ((((c :: rest).drop buildIdLit.length)).dropWhile (fun d => d != '"')).isEmpty
      · rw [if_pos he] at h; exact ih h
      · rw [if_neg he] at h
        obtain rfl : _ = tok := Option.some.inj h
        intro hnil
        rw [hnil] at he
        simp at he
    · simp only [hl, if_false] at h
      exact ih h

/-- The extracted build identifier is never the empty string, so the
`if (!buildId)` falsiness test only fires when there was no match. -/
lemma extractBuildId_ne_empty {html : String} {b : String}
    (h : extractBuildId html = some b) : b ≠ "" := by
  unfold extractBuildId at h
  cases hf : extractFrom html.data with
  | none => rw [hf] at h; simp at h
  | some tok =>
    rw [hf] at h
    simp only [Option.map_some'] at h
    obtain rfl : _ = b := Option.some.inj h
    have := extractFrom_ne_nil hf
    intro hb
    exact this (congrArg String.data hb)

/-! ### C5: missing build identifier is a soft abort -/

/-- C5: for every run in which the page markup contains no match for the
build-identifier pattern, `checkTask` terminates early with no error
reaching the top-level catch, no notifier or summarizer call, no diff,
and no write to either store key. -/
theorem missing_buildId_soft_abort (html : String) (paths : List String)
    (beh : String → Option String) (llm : LlmBehavior) (nf : Bool) (st : Store)
    (hx : extractBuildId html = none) :
    checkTask html paths beh llm nf st
      = ⟨.aborted, st, false, false, false, false, false, false⟩ := by
  unfold checkTask
  rw [hx]

/-- Witness for C5 at a concrete page with no build identifier. -/
theorem missing_buildId_soft_abort_witness :
    checkTask "<html>hello</html>" [] (fun _ => none) .reject false ⟨none, none⟩
      = ⟨.aborted, ⟨none, none⟩, false, false, false, false, false, false⟩ :=
  missing_buildId_soft_abort "<html>hello</html>" [] (fun _ => none) .reject false
    ⟨none, none⟩ (by decide)

/-! ### C6: the diff text never exceeds 3000 characters -/

/-- C6: for all old and new script maps, `generateDiff` returns at most
3000 characters (`diffSummary.substring(0, 3000)`). -/
theorem generateDiff_length_le (oldFiles newFiles : JsRecord) :
    (generateDiff oldFiles newFiles).length ≤ 3000 := by
  simp only [generateDiff, String.length_mk, List.length_take]
  omega

/-! ### C7: every listed token has length greater than 3 -/

/-- C7: any token of an added-tokens or removed-tokens list of the diff
(the lists whose first 40 elements are printed) has length strictly
greater than 3. -/
theorem listed_token_length_gt_three (oldContent newContent t : String)
    (h : t ∈ addedTokens oldContent newContent ∨ t ∈ removedTokens oldContent newContent) :
    3 < t.length := by
  rcases h with h | h
  · have h2 := (List.mem_filter.mp h).2
    simp only [Bool.and_eq_true, decide_eq_true_eq] at h2
    exact h2.2
  · have h2 := (List.mem_filter.mp h).2
    simp only [Bool.and_eq_true, decide_eq_true_eq] at h2
    exact h2.2

/-- Witness for C7: the token `bbbbb` is listed as added between the
contents `aaaa` and `bbbbb`, and indeed has length greater than 3. -/
theorem listed_token_length_gt_three_witness : 3 < "bbbbb".length :=
  listed_token_length_gt_three "aaaa" "bbbbb" "bbbbb" (Or.inl (by decide))

/-! ### C9: empty diff text short-circuits the summarizer -/

/-- C9: when the diff text is empty or consists only of whitespace,
`getAIPatchSummary` returns the fixed fallback sentence and the external
text-generation endpoint is not called, for every endpoint behaviour. -/
theorem empty_diff_fallback_no_call (diffText : String) (llm : LlmBehavior)
    (hw : diffText.data.all isJsWs = true) :
    getAIPatchSummary diffText llm
      = ("僅有微小變更或資源檔更新，無明顯業務邏輯變化。", false) := by
  have h1 : diffText.data.dropWhile isJsWs = [] := by
    rw [List.dropWhile_eq_nil_iff]
    intro x hx
    exact List.all_eq_true.mp hw x hx
  unfold getAIPatchSummary
  rw [if_pos]
  simp [jsTrim, h1]

/-- Witness for C9 at a whitespace-only diff text and a live endpoint. -/
theorem empty_diff_fallback_no_call_witness :
    getAIPatchSummary "  \n " (.respond (some "a summary"))
      = ("僅有微小變更或資源檔更新，無明顯業務邏輯變化。", false) :=
  empty_diff_fallback_no_call "  \n " (.respond (some "a summary")) (by decide)

/-! ### C1: a notification failure blocks persistence (code bug) -/

/-- C1 fails on the code: in a run that detects a version change
(stored `v1`, current `v2`) in which the Discord webhook fetch rejects,
the rejection propagates out of the un-guarded `await
sendDiscordNotification(...)` (line 72) to the top-level catch, so the
KV writes of lines 75-76 never run: the store still holds the old
`v1` snapshot even though the notification was attempted and the diff
and summary were computed. -/
theorem notification_failure_blocks_persistence :
    checkTask "x\"buildId\":\"v2\"y" [] (fun _ => none) .reject true
      ⟨some "v1", some []⟩
      = ⟨.errored, ⟨some "v1", some []⟩, false, false, true, false, true, true⟩ := by
  decide

/-! ### C3: the build identifier is the sole change trigger -/

/-- C3: whenever the extracted build identifier equals the stored
`LAST_BUILD_ID`, the run takes the NO_CHANGE path: no diff is computed,
neither the summarizer nor the notifier is called, and neither store key
is written — for every script-download behaviour, i.e. even when the
fetched script contents differ from the stored ones. -/
theorem buildId_sole_change_trigger (html : String) (paths : List String)
    (beh : String → Option String) (llm : LlmBehavior) (nf : Bool) (st : Store)
    (b : String) (hx : extractBuildId html = some b) (hst : st.lastBuildId = some b) :
    checkTask html paths beh llm nf st
      = ⟨.noChange, st, false, false, false, false, false, false⟩ := by
  have hb : b ≠ "" := extractBuildId_ne_empty hx
  unfold checkTask
  rw [hx, hst]
  simp [hb]

/-- Witness for C3: stored and current build identifier both `v1`, while
the single stored script differs from the freshly downloaded content;
the run still reports NO_CHANGE and mutates nothing. -/
theorem buildId_sole_change_trigger_witness :
    checkTask "x\"buildId\":\"v1\"y" ["a.js"] (fun _ => some "totally different")
        .reject false ⟨some "v1", some [("a.js", "stored content")]⟩
      = ⟨.noChange, ⟨some "v1", some [("a.js", "stored content")]⟩,
          false, false, false, false, false, false⟩ :=
  buildId_sole_change_trigger "x\"buildId\":\"v1\"y" ["a.js"]
    (fun _ => some "totally different") .reject false
    ⟨some "v1", some [("a.js", "stored content")]⟩ "v1" (by decide) rfl

/-! ### C4: bootstrap persists without notifying -/

/-- C4: when the store holds no prior build identifier, the run persists
the current snapshot (the extracted build identifier and the downloaded
scripts map) and calls neither the summarizer nor the notifier. -/
theorem bootstrap_persists_without_notify (html : String) (paths : List String)
    (beh : String → Option String) (llm : LlmBehavior) (nf : Bool) (st : Store)
    (b : String) (hx : extractBuildId html = some b) (hst : st.lastBuildId = none) :
    checkTask html paths beh llm nf st
      = ⟨.bootstrap, ⟨some b, some (fetchJsContents paths beh)⟩,
          true, true, false, false, false, false⟩ := by
  have hb : b ≠ "" := extractBuildId_ne_empty hx
  unfold checkTask
  rw [hx, hst]
  simp [hb]

/-- Witness for C4 on an empty store and one downloadable script. -/
theorem bootstrap_persists_without_notify_witness :
    checkTask "x\"buildId\":\"v1\"y" ["a.js"] (fun _ => some "body") .reject false
        ⟨none, none⟩
      = ⟨.bootstrap, ⟨some "v1", some (fetchJsContents ["a.js"] (fun _ => some "body"))⟩,
          true, true, false, false, false, false⟩ :=
  bootstrap_persists_without_notify "x\"buildId\":\"v1\"y" ["a.js"]
    (fun _ => some "body") .reject false ⟨none, none⟩ "v1" (by decide) rfl

/-! ### C2: normalization is exactly hash-suffix stripping -/

lemma takeWhile_append_all {α : Type} (p : α → Bool) {c : α} {l₂ : List α}
    (hc : p c = false) : ∀ l₁ : List α, (∀ x ∈ l₁, p x = true) →
    (l₁ ++ c :: l₂).takeWhile p = l₁ := by
  intro l₁
  induction l₁ with
  | nil => intro _; simp [List.takeWhile_cons, hc]
  | cons a l ih =>
    intro hall
    have ha : p a = true := hall a (List.mem_cons_self a l)
    simp [List.takeWhile_cons, ha, ih (fun x hx => hall x (List.mem_cons_of_mem a hx))]

lemma dropWhile_append_all {α : Type} (p : α → Bool) {c : α} {l₂ : List α}
    (hc : p c = false) : ∀ l₁ : List α, (∀ x ∈ l₁, p x = true) →
    (l₁ ++ c :: l₂).dropWhile p = c :: l₂ := by
  intro l₁
  induction l₁ with
  | nil => intro _; simp [List.dropWhile_cons, hc]
  | cons a l ih =>
    intro hall
    have ha : p a = true := hall a (List.mem_cons_self a l)
    simp [List.dropWhile_cons, ha, ih (fun x hx => hall x (List.mem_cons_of_mem a hx))]

/-- Any path of the shape `name-<hash>.js` has at least 20 characters,
so short paths trivially have no hash suffix. -/
lemma no_decomp_of_short {cs : List Char} (h : cs.length < 20) :
    ¬ ∃ name hx : List Char, hx.all isHexLower = true ∧ 16 ≤ hx.length ∧
        cs = name ++ '-' :: (hx ++ ['.', 'j', 's']) := by
  rintro ⟨name, hx, -, hlen, rfl⟩
  simp [List.length_append] at h
  omega

/-- C2: normalization is exactly hash-suffix stripping. First part: a
path of the form `name-<16 or more lowercase-hex characters>.js`
normalizes to `name.js`. Second part: a path not of that form is left
unchanged. -/
theorem hash_suffix_normalization :
    (∀ name hx : List Char, hx.all isHexLower = true → 16 ≤ hx.length →
      normalizeChars (name ++ '-' :: (hx ++ ['.', 'j', 's'])) = name ++ ['.', 'j', 's'])
    ∧ (∀ cs : List Char,
      (¬ ∃ name hx : List Char, hx.all isHexLower = true ∧ 16 ≤ hx.length ∧
          cs = name ++ '-' :: (hx ++ ['.', 'j', 's'])) →
      normalizeChars cs = cs) := by
  constructor
  · intro name hx hall hlen
    have hallrev : ∀ x ∈ hx.reverse, isHexLower x = true := by
      intro x hmem
      exact List.all_eq_true.mp hall x (List.mem_reverse.mp hmem)
    have hdash : isHexLower '-' = false := by decide
    have htw : (hx.reverse ++ '-' :: name.reverse).takeWhile isHexLower = hx.reverse :=
      takeWhile_append_all isHexLower hdash hx.reverse hallrev
    have hdw : (hx.reverse ++ '-' :: name.reverse).dropWhile isHexLower
        = '-' :: name.reverse :=
      dropWhile_append_all isHexLower hdash hx.reverse hallrev
    have hrev : (name ++ '-' :: (hx ++ ['.', 'j', 's'])).reverse
        = 's' :: 'j' :: '.' :: (hx.reverse ++ '-' :: name.reverse) := by
      simp
    unfold normalizeChars
    rw [hrev]
    have hcond : (('s' :: 'j' :: '.' :: (hx.reverse ++ '-' :: name.reverse)).take 3
          = ['s', 'j', '.'])
        ∧ ((('s' :: 'j' :: '.' :: (hx.reverse ++ '-' :: name.reverse)).drop 3).dropWhile
            isHexLower).head? = some '-'
        ∧ 16 ≤ ((('s' :: 'j' :: '.' :: (hx.reverse ++ '-' :: name.reverse)).drop 3).takeWhile
            isHexLower).length := by
      refine ⟨rfl, ?_, ?_⟩
      · show ((hx.reverse ++ '-' :: name.reverse).dropWhile isHexLower).head? = some '-'
        rw [hdw]
        rfl
      · show 16 ≤ ((hx.reverse ++ '-' :: name.reverse).takeWhile isHexLower).length
        rw [htw]
        simpa [List.length_reverse] using hlen
    rw [if_pos hcond]
    show ((( hx.reverse ++ '-' :: name.reverse).dropWhile isHexLower).tail).reverse
        ++ ['.', 'j', 's'] = name ++ ['.', 'j', 's']
    rw [hdw]
    simp
  · intro cs hno
    unfold normalizeChars
    split_ifs with hc
    · exfalso
      apply hno
      obtain ⟨h1, h2, h3⟩ := hc
      cases hrest : (cs.reverse.drop 3).dropWhile isHexLower with
      | nil => rw [hrest] at h2; simp at h2
      | cons r t =>
        rw [hrest] at h2
        simp only [List.head?_cons, Option.some.injEq] at h2
        subst h2
        have hRsplit : cs.reverse.drop 3
            = (cs.reverse.drop 3).takeWhile isHexLower ++ '-' :: t := by
          rw [← hrest]
          exact (List.takeWhile_append_dropWhile _ _).symm
        have hcsrev : cs.reverse = ['s', 'j', '.'] ++ cs.reverse.drop 3 := by
          conv_lhs => rw [← List.take_append_drop 3 cs.reverse]
          rw [h1]
        refine ⟨t.reverse, ((cs.reverse.drop 3).takeWhile isHexLower).reverse, ?_, ?_, ?_⟩
        · rw [List.all_eq_true]
          intro x hmem
          exact List.mem_takeWhile_imp (List.mem_reverse.mp hmem)
        · simpa [List.length_reverse] using h3
        · calc cs = cs.reverse.reverse := (List.reverse_reverse cs).symm
            _ = (['s', 'j', '.'] ++ cs.reverse.drop 3).reverse := by rw [← hcsrev]
            _ = (['s', 'j', '.'] ++ ((cs.reverse.drop 3).takeWhile isHexLower
                ++ '-' :: t)).reverse := by rw [← hRsplit]
            _ = t.reverse ++ '-' :: (((cs.reverse.drop 3).takeWhile isHexLower).reverse
                ++ ['.', 'j', 's']) := by simp
    · rfl

/-- Witness for C2: the code-comment example `page-f771e2c1298902e1.js`
normalizes to `page.js`, and `main.js` (no hash suffix) passes through. -/
theorem hash_suffix_normalization_witness :
    normalizeChars ("page".data ++ '-' :: ("f771e2c1298902e1".data ++ ['.', 'j', 's']))
        = "page".data ++ ['.', 'j', 's']
    ∧ normalizeChars "main.js".data = "main.js".data :=
  ⟨hash_suffix_normalization.1 "page".data "f771e2c1298902e1".data (by decide) (by decide),
   hash_suffix_normalization.2 "main.js".data (no_decomp_of_short (by decide))⟩

/-! ### C8: the diff iterates over new modules only -/

/-- Removing the entries of a key different from the one looked up does
not change the lookup. -/
lemma recordLookup_filter_ne (name k : String) (hk : k ≠ name) :
    ∀ m : JsRecord, recordLookup (m.filter (fun e => e.1 != name)) k = recordLookup m k := by
  intro m
  induction m with
  | nil => rfl
  | cons e rest ih =>
    by_cases he : e.1 = name
    · have : (e.1 != name) = false := by simp [he]
      simp only [List.filter_cons, this, Bool.false_eq_true, if_false]
      rw [ih]
      obtain ⟨k', v⟩ := e
      simp only at he
      subst he
      have hne : ¬(k' = k) := fun h => hk h.symm
      simp [recordLookup, hne]
    · have : (e.1 != name) = true := by simp [he]
      simp only [List.filter_cons, this, if_true]
      obtain ⟨k', v⟩ := e
      by_cases hkk : k' = k
      · simp [recordLookup, hkk]
      · simp [recordLookup, hkk, ih]

/-- The per-entry diff text only reads the old map at the entry's own
key, so dropping an old-only key changes nothing. -/
lemma renderEntry_filter_ne (old : JsRecord) (name : String) (e : String × String)
    (he : e.1 ≠ name) :
    renderEntry (old.filter (fun e => e.1 != name)) e = renderEntry old e := by
  unfold renderEntry
  rw [recordLookup_filter_ne name e.1 he]

lemma foldl_render_filter (old : JsRecord) (name : String) :
    ∀ (new : JsRecord) (acc : String), name ∉ new.map Prod.fst →
      new.foldl (fun a e => a ++ renderEntry (old.filter (fun e => e.1 != name)) e) acc
        = new.foldl (fun a e => a ++ renderEntry old e) acc := by
  intro new
  induction new with
  | nil => intro acc _; rfl
  | cons e rest ih =>
    intro acc hname
    simp only [List.map_cons, List.mem_cons] at hname
    push_neg at hname
    simp only [List.foldl_cons]
    rw [renderEntry_filter_ne old name e (fun h => hname.1 h.symm), ih _ hname.2]

/-- C8: a module name absent from the new map contributes nothing to the
diff output — deleting all its entries from the old map leaves
`generateDiff` unchanged (the loop iterates over new modules only and
reads the old map only at their keys). -/
theorem removed_module_no_diff_entry (old new : JsRecord) (name : String)
    (hname : name ∉ new.map Prod.fst) :
    generateDiff (old.filter (fun e => e.1 != name)) new = generateDiff old new := by
  unfold generateDiff
  rw [foldl_render_filter old name new "" hname]

/-- Witness for C8: the old-only module `gone.js` (present in old,
absent from new) can be deleted without changing the diff text. -/
theorem removed_module_no_diff_entry_witness :
    generateDiff ([("gone.js", "aaaa bbbb"), ("a.js", "aaaa")].filter
        (fun e => e.1 != "gone.js")) [("a.js", "aaaa zzzzz")]
      = generateDiff [("gone.js", "aaaa bbbb"), ("a.js", "aaaa")] [("a.js", "aaaa zzzzz")] :=
  removed_module_no_diff_entry [("gone.js", "aaaa bbbb"), ("a.js", "aaaa")]
    [("a.js", "aaaa zzzzz")] "gone.js" (by decide)

/-! ### C10: paths are dropped only on rejection -/

lemma recordLookup_append_single (k v : String) :
    ∀ m : JsRecord, m.any (fun e => e.1 == k) = false →
      recordLookup (m ++ [(k, v)]) k = some v := by
  intro m
  induction m with
  | nil => intro _; simp [recordLookup]
  | cons e rest ih =>
    intro h
    obtain ⟨k', v'⟩ := e
    simp only [List.any_cons, Bool.or_eq_false_iff] at h
    have hne : ¬(k' = k) := by
      intro hkk
      rw [hkk] at h
      simp at h
    simp only [List.cons_append, recordLookup, if_neg hne]
    exact ih h.2

lemma recordLookup_map_update (k v : String) :
    ∀ m : JsRecord, m.any (fun e => e.1 == k) = true →
      recordLookup (m.map (fun e => if e.1 = k then (k, v) else e)) k = some v := by
  intro m
  induction m with
  | nil => intro h; simp at h
  | cons e rest ih =>
    intro h
    obtain ⟨k', v'⟩ := e
    by_cases hkk : k' = k
    · subst hkk
      simp only [List.map_cons]
      rw [if_pos trivial]
      simp [recordLookup]
    · simp only [List.map_cons]
      rw [if_neg (by simpa using hkk)]
      simp only [recordLookup, if_neg hkk]
      exact ih (by simpa [hkk] using h)

/-- After `files[k] = v`, reading `files[k]` yields `v`. -/
lemma recordLookup_put_self (m : JsRecord) (k v : String) :
    recordLookup (recordPut m k v) k = some v := by
  unfold recordPut
  by_cases h : m.any (fun e => e.1 == k) = true
  · rw [if_pos h]
    exact recordLookup_map_update k v m h
  · rw [if_neg h]
    exact recordLookup_append_single k v m (Bool.eq_false_iff.mpr h)

/-- After `files[k] = v`, reading any other key is unchanged. -/
lemma recordLookup_put_ne (m : JsRecord) (k v k' : String) (hne : k' ≠ k) :
    recordLookup (recordPut m k v) k' = recordLookup m k' := by
  unfold recordPut
  by_cases h : m.any (fun e => e.1 == k) = true
  · rw [if_pos h]
    clear h
    induction m with
    | nil => rfl
    | cons e rest ih =>
      obtain ⟨k'', v''⟩ := e
      by_cases hkk : k'' = k
      · subst hkk
        have hne3 : ¬(k'' = k') := fun hh => hne hh.symm
        simp only [List.map_cons]
        rw [if_pos (by simp)]
        simp only [recordLookup, if_neg hne3]
        exact ih
      · simp only [List.map_cons]
        rw [if_neg (by simpa using hkk)]
        simp only [recordLookup]
        by_cases hk3 : k'' = k'
        · rw [if_pos hk3, if_pos hk3]
        · rw [if_neg hk3, if_neg hk3]
          exact ih
  · rw [if_neg h]
    clear h
    induction m with
    | nil =>
      have hne2 : ¬(k = k') := fun hh => hne hh.symm
      simp [recordLookup, hne2]
    | cons e rest ih =>
      obtain ⟨k'', v''⟩ := e
      simp only [List.cons_append, recordLookup]
      by_cases hk3 : k'' = k'
      · rw [if_pos hk3, if_pos hk3]
      · rw [if_neg hk3, if_neg hk3]
        exact ih

/-- One download task never removes a key that is already present. -/
lemma fetchStep_preserves (beh : String → Option String) (k : String)
    (files : JsRecord) (p : String)
    (h : (recordLookup files k).isSome = true) :
    (recordLookup (fetchStep beh files p) k).isSome = true := by
  unfold fetchStep
  cases beh p with
  | none => exact h
  | some content =>
    by_cases hk : k = normalizeStr p
    · rw [hk, recordLookup_put_self]
      rfl
    · rw [recordLookup_put_ne _ _ _ _ hk]
      exact h

lemma foldl_fetchStep_preserves (beh : String → Option String) (k : String) :
    ∀ (paths : List String) (acc : JsRecord),
      (recordLookup acc k).isSome = true →
      (recordLookup (paths.foldl (fetchStep beh) acc) k).isSome = true := by
  intro paths
  induction paths with
  | nil => intro acc h; exact h
  | cons p rest ih =>
    intro acc h
    exact ih (fetchStep beh acc p) (fetchStep_preserves beh k acc p h)

/-- Tasks whose canonical name differs from `k` leave `files[k]` alone. -/
lemma foldl_fetchStep_untouched (beh : String → Option String) (k : String) :
    ∀ (paths : List String) (acc : JsRecord),
      (∀ q ∈ paths, (beh q).isSome = true → normalizeStr q ≠ k) →
      recordLookup (paths.foldl (fetchStep beh) acc) k = recordLookup acc k := by
  intro paths
  induction paths with
  | nil => intro acc _; rfl
  | cons p rest ih =>
    intro acc hq
    simp only [List.foldl_cons]
    rw [ih _ (fun q hmem => hq q (List.mem_cons_of_mem p hmem))]
    unfold fetchStep
    cases hbp : beh p with
    | none => rfl
    | some content =>
      have : normalizeStr p ≠ k := hq p (List.mem_cons_self p rest) (by simp [hbp])
      rw [recordLookup_put_ne _ _ _ _ (fun hh => this hh.symm)]

lemma foldl_fetchStep_mem (beh : String → Option String) (p : String) :
    ∀ (paths : List String) (acc : JsRecord), p ∈ paths → (beh p).isSome = true →
      (recordLookup (paths.foldl (fetchStep beh) acc) (normalizeStr p)).isSome = true := by
  intro paths
  induction paths with
  | nil => intro acc h; simp at h
  | cons q rest ih =>
    intro acc hmem hsome
    rcases List.mem_cons.mp hmem with rfl | hmem'
    · simp only [List.foldl_cons]
      apply foldl_fetchStep_preserves
      obtain ⟨content, hc⟩ := Option.isSome_iff_exists.mp hsome
      unfold fetchStep
      rw [hc, recordLookup_put_self]
      rfl
    · simp only [List.foldl_cons]
      exact ih _ hmem' hsome

/-- When no later colliding write can occur, the resolving path's own
body is the stored content. -/
lemma foldl_fetchStep_unique (beh : String → Option String) (p body : String)
    (hbody : beh p = some body) :
    ∀ (paths : List String) (acc : JsRecord), p ∈ paths →
      (∀ q ∈ paths, (beh q).isSome = true → normalizeStr q = normalizeStr p → q = p) →
      recordLookup (paths.foldl (fetchStep beh) acc) (normalizeStr p) = some body := by
  intro paths
  induction paths with
  | nil => intro acc h _; simp at h
  | cons q rest ih =>
    intro acc hmem huniq
    simp only [List.foldl_cons]
    by_cases hpr : p ∈ rest
    · exact ih _ hpr (fun q' hq' => huniq q' (List.mem_cons_of_mem q hq'))
    · have hpq : p = q := by
        rcases List.mem_cons.mp hmem with h | h
        · exact h
        · exact absurd h hpr
      subst hpq
      have hno : ∀ q' ∈ rest, (beh q').isSome = true → normalizeStr q' ≠ normalizeStr p := by
        intro q' hq' hsome' heq
        have hq'p := huniq q' (List.mem_cons_of_mem p hq') hsome' heq
        exact hpr (hq'p ▸ hq')
      rw [foldl_fetchStep_untouched beh (normalizeStr p) rest (fetchStep beh acc p) hno]
      simp only [fetchStep, hbody]
      exact recordLookup_put_self acc (normalizeStr p) body

/-- C10 (amended): a script path whose fetch resolves is never omitted —
its canonical name is always a key of the result map — and its response
body is the stored content whenever no distinct resolving path shares
its canonical name. (As stated, the claim fails under canonical-name
collisions: the last-processed colliding path's body wins; see the
counterexample.) -/
theorem resolving_path_included (paths : List String) (beh : String → Option String)
    (p : String) (hp : p ∈ paths) :
    ((beh p).isSome = true →
      (recordLookup (fetchJsContents paths beh) (normalizeStr p)).isSome = true)
    ∧ (∀ body, beh p = some body →
        (∀ q ∈ paths, (beh q).isSome = true → normalizeStr q = normalizeStr p → q = p) →
        recordLookup (fetchJsContents paths beh) (normalizeStr p) = some body) := by
  constructor
  · intro hsome
    exact foldl_fetchStep_mem beh p paths [] hp hsome
  · intro body hbody huniq
    exact foldl_fetchStep_unique beh p body hbody paths [] hp huniq

/-- C10 as stated is false on the code: two script paths that resolve
successfully but normalize to the same canonical name `a.js` overwrite
each other, so the first path's canonical name is present in the result
map but does not hold that path's own response body `X`. -/
theorem resolving_path_included_counterexample :
    ¬ (recordLookup
        (fetchJsContents ["a-aaaaaaaaaaaaaaaa.js", "a-bbbbbbbbbbbbbbbb.js"]
          (fun p => if p = "a-aaaaaaaaaaaaaaaa.js" then some "X" else some "Y"))
        (normalizeStr "a-aaaaaaaaaaaaaaaa.js") = some "X") := by
  decide

/-- Witness for the amended C10 at a single resolving path. -/
theorem resolving_path_included_witness :
    (recordLookup (fetchJsContents ["p-aaaaaaaaaaaaaaaa.js"] (fun _ => some "body"))
        (normalizeStr "p-aaaaaaaaaaaaaaaa.js")).isSome = true
    ∧ recordLookup (fetchJsContents ["p-aaaaaaaaaaaaaaaa.js"] (fun _ => some "body"))
        (normalizeStr "p-aaaaaaaaaaaaaaaa.js") = some "body" :=
  ⟨(resolving_path_included ["p-aaaaaaaaaaaaaaaa.js"] (fun _ => some "body")
      "p-aaaaaaaaaaaaaaaa.js" (by decide)).1 rfl,
   (resolving_path_included ["p-aaaaaaaaaaaaaaaa.js"] (fun _ => some "body")
      "p-aaaaaaaaaaaaaaaa.js" (by decide)).2 "body" rfl
      (by intro q hq _ _; simpa using hq)⟩

end DeepseekChecker
